import Mathlib

/-!
Verification of the event classification and grouping pipeline of
src/lambda_event_handler.py against the repository specification.

The Python program is embedded shallowly:
* Python values are the inductive type PyVal (None, int, str, list, dict);
  a dict is an insertion-ordered association list with unique keys, which
  is exactly the observable behaviour of a CPython dict;
* Python strings are lists of characters (Str);
* code that can raise returns Except PyErr;
* `list(set(xs))` iterates a hash table in an unspecified, hash-seed
  dependent order, so it is modelled by a parameter
  `choose : List PyVal → List PyVal` constrained by `SetOrder`: the
  result enumerates the distinct elements of the input, each exactly once.
-/

namespace AwsEventHandler

/-- Python strings, modelled as lists of characters. -/
abbrev Str := List Char

/-- Embedded Python values: None, int, str, list and dict (a dict is an
insertion-ordered association list with unique keys). -/
inductive PyVal : Type where
  | vNone : PyVal
  | vInt : Int → PyVal
  | vStr : Str → PyVal
  | vList : List PyVal → PyVal
  | vDict : List (Str × PyVal) → PyVal

mutual

/-- Decidable structural equality on embedded Python values.  On the values
the program actually compares (strings) it coincides with Python `==`. -/
def pvDecEq : (a b : PyVal) → Decidable (a = b)
  | .vNone, .vNone => isTrue rfl
  | .vNone, .vInt _ => isFalse fun h => PyVal.noConfusion h
  | .vNone, .vStr _ => isFalse fun h => PyVal.noConfusion h
  | .vNone, .vList _ => isFalse fun h => PyVal.noConfusion h
  | .vNone, .vDict _ => isFalse fun h => PyVal.noConfusion h
  | .vInt _, .vNone => isFalse fun h => PyVal.noConfusion h
  | .vInt a, .vInt b =>
    if h : a = b then isTrue (by rw [h]) else
      isFalse fun h2 => h (PyVal.vInt.inj h2)
  | .vInt _, .vStr _ => isFalse fun h => PyVal.noConfusion h
  | .vInt _, .vList _ => isFalse fun h => PyVal.noConfusion h
  | .vInt _, .vDict _ => isFalse fun h => PyVal.noConfusion h
  | .vStr _, .vNone => isFalse fun h => PyVal.noConfusion h
  | .vStr _, .vInt _ => isFalse fun h => PyVal.noConfusion h
  | .vStr a, .vStr b =>
    if h : a = b then isTrue (by rw [h]) else
      isFalse fun h2 => h (PyVal.vStr.inj h2)
  | .vStr _, .vList _ => isFalse fun h => PyVal.noConfusion h
  | .vStr _, .vDict _ => isFalse fun h => PyVal.noConfusion h
  | .vList _, .vNone => isFalse fun h => PyVal.noConfusion h
  | .vList _, .vInt _ => isFalse fun h => PyVal.noConfusion h
  | .vList _, .vStr _ => isFalse fun h => PyVal.noConfusion h
  | .vList xs, .vList ys =>
    match plDecEq xs ys with
    | isTrue h => isTrue (by rw [h])
    | isFalse h => isFalse fun h2 => h (PyVal.vList.inj h2)
  | .vList _, .vDict _ => isFalse fun h => PyVal.noConfusion h
  | .vDict _, .vNone => isFalse fun h => PyVal.noConfusion h
  | .vDict _, .vInt _ => isFalse fun h => PyVal.noConfusion h
  | .vDict _, .vStr _ => isFalse fun h => PyVal.noConfusion h
  | .vDict _, .vList _ => isFalse fun h => PyVal.noConfusion h
  | .vDict xs, .vDict ys =>
    match pdDecEq xs ys with
    | isTrue h => isTrue (by rw [h])
    | isFalse h => isFalse fun h2 => h (PyVal.vDict.inj h2)

/-- Decidable equality on lists of embedded Python values. -/
def plDecEq : (xs ys : List PyVal) → Decidable (xs = ys)
  | [], [] => isTrue rfl
  | [], _ :: _ => isFalse fun h => List.noConfusion h
  | _ :: _, [] => isFalse fun h => List.noConfusion h
  | x :: xs, y :: ys =>
    match pvDecEq x y, plDecEq xs ys with
    | isTrue h1, isTrue h2 => isTrue (by rw [h1, h2])
    | isFalse h1, _ => isFalse fun h => h1 (List.cons.inj h).1
    | _, isFalse h2 => isFalse fun h => h2 (List.cons.inj h).2

/-- Decidable equality on dict entry lists. -/
def pdDecEq : (xs ys : List (Str × PyVal)) → Decidable (xs = ys)
  | [], [] => isTrue rfl
  | [], _ :: _ => isFalse fun h => List.noConfusion h
  | _ :: _, [] => isFalse fun h => List.noConfusion h
  | (k, v) :: xs, (l, w) :: ys =>
    if hk : k = l then
      match pvDecEq v w, pdDecEq xs ys with
      | isTrue h1, isTrue h2 => isTrue (by rw [hk, h1, h2])
      | isFalse h1, _ =>
        isFalse fun h => h1 (congrArg Prod.snd (List.cons.inj h).1)
      | _, isFalse h2 => isFalse fun h => h2 (List.cons.inj h).2
    else isFalse fun h => hk (congrArg Prod.fst (List.cons.inj h).1)

end

instance : DecidableEq PyVal := pvDecEq

instance {ε α : Type} [DecidableEq ε] [DecidableEq α] :
    DecidableEq (Except ε α) := fun a b =>
  match a, b with
  | .ok x, .ok y => decidable_of_iff (x = y) (by simp)
  | .error e, .error f => decidable_of_iff (e = f) (by simp)
  | .ok _, .error _ => isFalse fun h => Except.noConfusion h
  | .error _, .ok _ => isFalse fun h => Except.noConfusion h

/-- Python exceptions that the embedded code can raise. -/
inductive PyErr : Type where
  | keyError : Str → PyErr
  | attributeError : PyErr
  | typeError : PyErr
deriving DecidableEq

/-- The dict key "name". -/
def key_name : Str := ['n', 'a', 'm', 'e']

/-- The dict key "event_id". -/
def key_event_id : Str := ['e', 'v', 'e', 'n', 't', '_', 'i', 'd']

/-- The dict key "event_type". -/
def key_event_type : Str := ['e', 'v', 'e', 'n', 't', '_', 't', 'y', 'p', 'e']

/-- The dict key "events". -/
def key_events : Str := ['e', 'v', 'e', 'n', 't', 's']

/-- The dict key "id" (the key named by the specification; the code uses
"event_id" instead). -/
def key_id : Str := ['i', 'd']

/-- Lookup of a key in a Python dict (association list with unique keys). -/
def dict_get (k : Str) : List (Str × PyVal) → Option PyVal
  | [] => none
  | (k', v) :: rest => if k' = k then some v else dict_get k rest

/-- Key-membership test on a Python dict, `k in d.keys()`. -/
def dict_has_key (k : Str) (kvs : List (Str × PyVal)) : Bool :=
  (dict_get k kvs).isSome

/-- Assignment `d[k] = v` on a Python dict: an existing key keeps its
position and receives the new value, a new key is appended at the end. -/
def dict_set (k : Str) (v : PyVal) : List (Str × PyVal) → List (Str × PyVal)
  | [] => [(k, v)]
  | (k', v') :: rest =>
    if k' = k then (k, v) :: rest else (k', v') :: dict_set k v rest

/-- Python subscript `x[k]` with a string key: succeeds only on a dict that
holds the key; KeyError when a dict lacks the key, TypeError when the value
is not subscriptable by a string. -/
def py_get (x : PyVal) (k : Str) : Except PyErr PyVal :=
  match x with
  | .vDict kvs =>
    match dict_get k kvs with
    | some v => .ok v
    | none => .error (.keyError k)
  | _ => .error .typeError

/-- Python iteration `for e in x`: a list yields its elements, a string its
one-character substrings, a dict its keys; int and None raise TypeError. -/
def py_iter (x : PyVal) : Except PyErr (List PyVal) :=
  match x with
  | .vList xs => .ok xs
  | .vStr s => .ok (s.map fun c => .vStr [c])
  | .vDict kvs => .ok (kvs.map fun kv => .vStr kv.1)
  | _ => .error .typeError

/-- Python `s.split(sep)` for a one-character separator: the chunks between
occurrences of the separator; the result is always non-empty and an empty
string splits to one empty chunk, as in CPython. -/
def py_split (sep : Char) : Str → List Str
  | [] => [[]]
  | c :: rest =>
    if c = sep then [] :: py_split sep rest
    else
      match py_split sep rest with
      | [] => [[c]]
      | g :: gs => (c :: g) :: gs

/-- The expression `s.split(":")[0]` used by add_type. -/
def split_head (s : Str) : Str :=
  match py_split ':' s with
  | [] => []
  | g :: _ => g

/-- Embedding of add_type: executes
`event["event_type"] = event["name"].split(":")[0]` and returns the event.
A missing "name" key raises KeyError (the source logs it and re-raises), a
non-string "name" raises AttributeError (no .split method), a non-dict
argument raises TypeError (not subscriptable). -/
def add_type (event : PyVal) : Except PyErr PyVal :=
  match event with
  | .vDict kvs =>
    match dict_get key_name kvs with
    | none => .error (.keyError key_name)
    | some (.vStr s) =>
      .ok (.vDict (dict_set key_event_type (.vStr (split_head s)) kvs))
    | some _ => .error .attributeError
  | _ => .error .typeError

/-- Embedding of group_dict: `{"event_type": type_name, "events": []}`. -/
def group_dict (type_name : PyVal) : PyVal :=
  .vDict [(key_event_type, type_name), (key_events, .vList [])]

/-- One execution of the loop body
`if e["event_type"] == g["event_type"]: g["events"].append(e)` of
add_events_to_group, for one event and one group. -/
def group_step (e g : PyVal) : Except PyErr PyVal :=
  match py_get e key_event_type with
  | .error er => .error er
  | .ok et =>
    match py_get g key_event_type with
    | .error er => .error er
    | .ok gt =>
      if et = gt then
        match py_get g key_events with
        | .error er => .error er
        | .ok (.vList xs) =>
          match g with
          | .vDict kvs =>
            .ok (.vDict (dict_set key_events (.vList (xs ++ [e])) kvs))
          | _ => .error .typeError
        | .ok _ => .error .attributeError
      else .ok g

/-- The inner `for g in groups` loop of add_events_to_group, for one event. -/
def group_pass (e : PyVal) : List PyVal → Except PyErr (List PyVal)
  | [] => .ok []
  | g :: gs =>
    match group_step e g with
    | .error er => .error er
    | .ok g2 =>
      match group_pass e gs with
      | .error er => .error er
      | .ok gs2 => .ok (g2 :: gs2)

/-- The outer `for e in events` loop of add_events_to_group. -/
def group_loop (groups : List PyVal) : List PyVal → Except PyErr (List PyVal)
  | [] => .ok groups
  | e :: rest =>
    match group_pass e groups with
    | .error er => .error er
    | .ok gs => group_loop gs rest

/-- Embedding of add_events_to_group: creates one group per entry of
event_types with `[group_dict(t) for t in event_types]`, then appends every
event to every group whose event_type equals the event's event_type. -/
def add_events_to_group (events : List PyVal) (event_types : List PyVal) :
    Except PyErr (List PyVal) :=
  group_loop (event_types.map group_dict) events

/-- Embedding of the set `required_keys = {"name", "event_id"}`. -/
def required_keys : List Str := [key_name, key_event_id]

/-- Embedding of validate_event: `required_keys.issubset(event.keys())`.
Calling .keys() on a non-dict raises AttributeError. -/
def validate_event (event : PyVal) : Except PyErr Bool :=
  match event with
  | .vDict kvs => .ok (required_keys.all fun k => dict_has_key k kvs)
  | _ => .error .attributeError

/-- The comprehension `[e for e in events if validate_event(e)]`. -/
def filter_valid : List PyVal → Except PyErr (List PyVal)
  | [] => .ok []
  | e :: rest =>
    match validate_event e with
    | .error er => .error er
    | .ok b =>
      match filter_valid rest with
      | .error er => .error er
      | .ok kept => .ok (if b then e :: kept else kept)

/-- The comprehension `[add_type(e) for e in events_validate]`. -/
def map_add_type : List PyVal → Except PyErr (List PyVal)
  | [] => .ok []
  | e :: rest =>
    match add_type e with
    | .error er => .error er
    | .ok w =>
      match map_add_type rest with
      | .error er => .error er
      | .ok ws => .ok (w :: ws)

/-- The comprehension `[e["event_type"] for e in events_with_type]`. -/
def map_event_type : List PyVal → Except PyErr (List PyVal)
  | [] => .ok []
  | e :: rest =>
    match py_get e key_event_type with
    | .error er => .error er
    | .ok t =>
      match map_event_type rest with
      | .error er => .error er
      | .ok ts => .ok (t :: ts)

/-- Admissible models of `list(set(xs))`: CPython iterates a set in an
unspecified, hash-seed dependent order, so the conversion is any function
whose result enumerates the distinct elements of its input, each exactly
once. -/
def SetOrder (choose : List PyVal → List PyVal) : Prop :=
  ∀ l, (choose l).Nodup ∧ ∀ x, x ∈ choose l ↔ x ∈ l

/-- The body of lambda_handler's try block after `events = event["events"]`,
parameterised by the set iteration order: filter by validate_event, apply
add_type, form `list(set([e["event_type"] for e in ...]))`, and group.
Returns the group list that the handler then prints. -/
def run_pipeline (choose : List PyVal → List PyVal) (events : List PyVal) :
    Except PyErr (List PyVal) :=
  match filter_valid events with
  | .error er => .error er
  | .ok events_validate =>
    match map_add_type events_validate with
    | .error er => .error er
    | .ok events_with_type =>
      match map_event_type events_with_type with
      | .error er => .error er
      | .ok raw_types => add_events_to_group events_with_type (choose raw_types)

/-- The string "events processed" returned on success. -/
def msg_processed : Str := ("events processed").toList

/-- The string returned when a KeyError is caught. -/
def msg_missing_key : Str := ("Error: Missing key in event data").toList

/-- The string returned when any other exception is caught. -/
def msg_unexpected : Str := ("Error: An unexpected error occurred").toList

/-- The whole try block of lambda_handler: `events = event["events"]`,
iterate it, then validate, classify and group. -/
def try_body (choose : List PyVal → List PyVal) (event : PyVal) :
    Except PyErr (List PyVal) :=
  match py_get event key_events with
  | .error er => .error er
  | .ok evs =>
    match py_iter evs with
    | .error er => .error er
    | .ok events => run_pipeline choose events

/-- Embedding of lambda_handler, returning the pair of the returned message
and the groups printed by the final loop (nothing is printed on an exception
path, since every exception is raised before the print loop).  The two
except clauses of the source map KeyError to one message and every other
exception to another.  The context argument is unused by the source and
therefore omitted. -/
def lambda_output (choose : List PyVal → List PyVal) (event : PyVal) :
    Str × List PyVal :=
  match try_body choose event with
  | .ok groups => (msg_processed, groups)
  | .error (.keyError _) => (msg_missing_key, [])
  | .error _ => (msg_unexpected, [])

/-- The return value of lambda_handler. -/
def lambda_handler (choose : List PyVal → List PyVal) (event : PyVal) : Str :=
  (lambda_output choose event).1

/-- The observable state of the input records after lambda_handler returns:
add_type mutates each record that passed validation in place (the list and
its dicts are the same Python objects throughout the handler), and records
that failed validation are untouched.  Total on runs in which the try block
does not raise. -/
def batch_after : List PyVal → Except PyErr (List PyVal)
  | [] => .ok []
  | e :: rest =>
    match validate_event e with
    | .error er => .error er
    | .ok b =>
      match (if b then add_type e else .ok e) with
      | .error er => .error er
      | .ok e2 =>
        match batch_after rest with
        | .error er => .error er
        | .ok rest2 => .ok (e2 :: rest2)

/-- First-seen-order deduplication, used to build concrete admissible set
orders; seen accumulates the values already emitted. -/
def dedup_first (seen : List PyVal) : List PyVal → List PyVal
  | [] => []
  | x :: xs =>
    if x ∈ seen then dedup_first seen xs
    else x :: dedup_first (x :: seen) xs

/-- A concrete admissible set order: distinct elements in first-seen order. -/
def choose_first (l : List PyVal) : List PyVal := dedup_first [] l

/-- A concrete admissible set order: distinct elements in reversed
first-seen order. -/
def choose_rev (l : List PyVal) : List PyVal := (dedup_first [] l).reverse

/-- Pure accessor for the "event_type" value of a record (none when the
record is not a dict or lacks the key). -/
def event_type_of (e : PyVal) : Option PyVal :=
  match e with
  | .vDict kvs => dict_get key_event_type kvs
  | _ => none

/-- Pure accessor for the "name" value of a record. -/
def event_name_of (e : PyVal) : Option PyVal :=
  match e with
  | .vDict kvs => dict_get key_name kvs
  | _ => none

/-- Pure accessor for the "events" list of a group dict. -/
def events_of (g : PyVal) : Option (List PyVal) :=
  match g with
  | .vDict kvs =>
    match dict_get key_events kvs with
    | some (.vList xs) => some xs
    | _ => none
  | _ => none

/-- Dict test, `isinstance(e, dict)`. -/
def is_dict : PyVal → Bool
  | .vDict _ => true
  | _ => false

/-- String test, `isinstance(e, str)`. -/
def is_str : PyVal → Bool
  | .vStr _ => true
  | _ => false

/-- A group value as built by the grouping loop: the dict
`{"event_type": t, "events": evs}`. -/
def mk_group (t : PyVal) (evs : List PyVal) : PyVal :=
  .vDict [(key_event_type, t), (key_events, .vList evs)]

/-- Boolean form of the validation predicate, for stating filters. -/
def is_valid (e : PyVal) : Bool := decide (validate_event e = .ok true)

/-- Boolean test for a record whose "name" value exists and is a string. -/
def has_str_name (e : PyVal) : Bool :=
  match event_name_of e with
  | some (.vStr _) => true
  | _ => false

/-- Abstract view of the grouping loop state: a list of pairs of a type tag
and the events accumulated so far. -/
def mk_groups (ps : List (PyVal × List PyVal)) : List PyVal :=
  ps.map fun p => mk_group p.1 p.2

/-- Relation between a record before the handler runs and the same record
object after: validated records are mutated in place by add_type, records
that failed validation are untouched. -/
def after_rel (e e2 : PyVal) : Prop :=
  (validate_event e = .ok true ∧ add_type e = .ok e2) ∨
  (validate_event e = .ok false ∧ e2 = e)

/-- Record `{"name": "u:1", "event_id": 1}`, in the style of the source's
sample batches. -/
def rec_u : PyVal :=
  .vDict [(key_name, .vStr (("u:1").toList)), (key_event_id, .vInt 1)]

/-- Record `{"name": "a:1", "event_id": 2}`. -/
def rec_a : PyVal :=
  .vDict [(key_name, .vStr (("a:1").toList)), (key_event_id, .vInt 2)]

/-- The state of rec_u after add_type mutated it in place. -/
def rec_u_typed : PyVal :=
  .vDict [(key_name, .vStr (("u:1").toList)), (key_event_id, .vInt 1),
    (key_event_type, .vStr ['u'])]

/-- The state of rec_a after add_type mutated it in place. -/
def rec_a_typed : PyVal :=
  .vDict [(key_name, .vStr (("a:1").toList)), (key_event_id, .vInt 2),
    (key_event_type, .vStr ['a'])]

/-- A two-record batch whose first-seen category order is u before a. -/
def batch_ua : List PyVal := [rec_u, rec_a]

/-- A record missing "event_id", so rejected by validate_event
(the source's third sample batch contains exactly this shape). -/
def rec_invalid : PyVal := .vDict [(key_name, .vStr (("a:b").toList))]

/-- Another record missing "event_id", with different content. -/
def rec_invalid2 : PyVal := .vDict [(key_name, .vStr (("zzz").toList))]

/-- A record that passes validation but whose "name" is an int. -/
def rec_int_name : PyVal := .vDict [(key_name, .vInt 7), (key_event_id, .vInt 1)]

/-- Modelled from the spec: a Group of the Grouper/Dispatcher contract — a
Category paired with the ordered records of that Category.  The dispatch
stage exists only in the specification: src/lambda_event_handler.py stops
after grouping and prints the groups, registering no handlers. -/
structure SGroup : Type where
  category : Str
  records : List PyVal
deriving DecidableEq

/-- Modelled from the spec: the outcome of one Handler invocation — the
handler runs to completion, or fails (raises or returns an explicit failure
indicator, with the error captured as a string). -/
inductive HandlerOutcome : Type where
  | success : HandlerOutcome
  | failure : Str → HandlerOutcome
deriving DecidableEq

/-- Modelled from the spec: a caller-supplied Handler, invoked with one
Group's record sequence. -/
abbrev Handler : Type := List PyVal → HandlerOutcome

/-- Modelled from the spec: the per-Group outcome of dispatch — Handled,
Failed (with the error captured) or Unrouted. -/
inductive DispatchResult : Type where
  | handled : Str → List PyVal → DispatchResult
  | failed : Str → List PyVal → Str → DispatchResult
  | unrouted : Str → List PyVal → DispatchResult
deriving DecidableEq

/-- Modelled from the spec: dispatch of a single Group — no registered
handler gives Unrouted (not an error), a handler failure is caught at the
Group boundary and gives Failed, otherwise Handled. -/
def dispatch_one (handlers : Str → Option Handler) (g : SGroup) :
    DispatchResult :=
  match handlers g.category with
  | none => .unrouted g.category g.records
  | some h =>
    match h g.records with
    | .success => .handled g.category g.records
    | .failure err => .failed g.category g.records err

/-- Modelled from the spec: group_and_dispatch invokes each Group's handler
independently and in order, continuing past per-Group handler failures. -/
def group_and_dispatch (handlers : Str → Option Handler)
    (groups : List SGroup) : List DispatchResult :=
  groups.map (dispatch_one handlers)

/-- Whether dispatching this Group would invoke a handler that fails. -/
def fails_on (handlers : Str → Option Handler) (g : SGroup) : Bool :=
  match handlers g.category with
  | none => false
  | some h =>
    match h g.records with
    | .success => false
    | .failure _ => true

/-- Test for a Failed dispatch result. -/
def is_failed : DispatchResult → Bool
  | .failed _ _ _ => true
  | _ => false

/-- Test for a Handled or Unrouted dispatch result. -/
def is_handled_or_unrouted : DispatchResult → Bool
  | .failed _ _ _ => false
  | _ => true

/-- Concrete handlers for the failure-isolation witness: the handler for
category u fails, the one for category a succeeds, no other category is
routed. -/
def w_handlers : Str → Option Handler := fun c =>
  if c = ['u'] then some (fun _ => .failure (("boom").toList))
  else if c = ['a'] then some (fun _ => .success)
  else none

/-- Concrete groups for the failure-isolation witness. -/
def w_groups : List SGroup :=
  [⟨['a'], [rec_a_typed]⟩, ⟨['u'], [rec_u_typed]⟩, ⟨['z'], []⟩]


lemma dict_get_set_self (k : Str) (v : PyVal) (kvs : List (Str × PyVal)) :
    dict_get k (dict_set k v kvs) = some v := by
  induction kvs with
  | nil => simp [dict_get, dict_set]
  | cons kv rest ih =>
    obtain ⟨k', v'⟩ := kv
    by_cases h : k' = k
    · simp [dict_get, dict_set, h]
    · simp [dict_get, dict_set, h, ih]

lemma dict_get_set_ne (k k2 : Str) (v : PyVal) (kvs : List (Str × PyVal))
    (h : k ≠ k2) : dict_get k (dict_set k2 v kvs) = dict_get k kvs := by
  induction kvs with
  | nil => simp [dict_get, dict_set, Ne.symm h]
  | cons kv rest ih =>
    obtain ⟨k', v'⟩ := kv
    by_cases h2 : k' = k2
    · subst h2
      simp [dict_get, dict_set, Ne.symm h]
    · by_cases h3 : k' = k
      · subst h3
        simp [dict_get, dict_set, h2]
      · simp [dict_get, dict_set, h2, h3, ih]

lemma dict_set_idem (k : Str) (v : PyVal) (kvs : List (Str × PyVal)) :
    dict_set k v (dict_set k v kvs) = dict_set k v kvs := by
  induction kvs with
  | nil => simp [dict_set]
  | cons kv rest ih =>
    obtain ⟨k', v'⟩ := kv
    by_cases h : k' = k
    · simp [dict_set, h]
    · simp [dict_set, h, ih]

lemma py_split_ne_nil (sep : Char) (s : Str) : py_split sep s ≠ [] := by
  induction s with
  | nil => simp [py_split]
  | cons c rest ih =>
    by_cases h : c = sep
    · simp [py_split, h]
    · simp only [py_split, h, if_false]
      match hp : py_split sep rest with
      | [] => exact absurd hp ih
      | g :: gs => simp

lemma split_head_cons_sep (rest : Str) : split_head (':' :: rest) = [] := by
  simp [split_head, py_split]

lemma split_head_cons_ne (c : Char) (rest : Str) (h : c ≠ ':') :
    split_head (c :: rest) = c :: split_head rest := by
  simp only [split_head, py_split, h, if_false]
  match hp : py_split ':' rest with
  | [] => exact absurd hp (py_split_ne_nil ':' rest)
  | g :: gs => simp

/-- The head of the split is the prefix of the string up to the first
separator: the string is the head followed by a remainder that is either
empty or starts with the separator. -/
lemma split_head_prefix (s : Str) :
    ∃ rest, s = split_head s ++ rest ∧ (rest = [] ∨ ∃ r, rest = ':' :: r) := by
  induction s with
  | nil => exact ⟨[], by simp [split_head, py_split], Or.inl rfl⟩
  | cons c tail ih =>
    by_cases h : c = ':'
    · subst h
      exact ⟨':' :: tail, by simp [split_head_cons_sep], Or.inr ⟨tail, rfl⟩⟩
    · obtain ⟨rest, heq, hr⟩ := ih
      exact ⟨rest, by rw [split_head_cons_ne c tail h]; simpa using heq, hr⟩

/-- The head of the split contains no separator. -/
lemma split_head_no_sep (s : Str) : ':' ∉ split_head s := by
  induction s with
  | nil => simp [split_head, py_split]
  | cons c tail ih =>
    by_cases h : c = ':'
    · subst h
      simp [split_head_cons_sep]
    · rw [split_head_cons_ne c tail h]
      simp [h, ih, Ne.symm h]

/-- A string without the separator is its own split head. -/
lemma split_head_of_no_sep (s : Str) (h : ':' ∉ s) : split_head s = s := by
  induction s with
  | nil => simp [split_head, py_split]
  | cons c tail ih =>
    have hc : c ≠ ':' := fun h2 => h (by simp [h2])
    rw [split_head_cons_ne c tail hc, ih (fun h2 => h (List.mem_cons_of_mem c h2))]

lemma event_type_of_mk_group (t : PyVal) (evs : List PyVal) :
    event_type_of (mk_group t evs) = some t := rfl

lemma events_of_mk_group (t : PyVal) (evs : List PyVal) :
    events_of (mk_group t evs) = some evs := rfl

lemma group_dict_eq_mk_group (t : PyVal) : group_dict t = mk_group t [] := rfl

lemma py_get_event_type (e : PyVal) (t : PyVal) :
    py_get e key_event_type = .ok t ↔ event_type_of e = some t := by
  cases e with
  | vDict kvs =>
    simp only [py_get, event_type_of]
    cases hd : dict_get key_event_type kvs with
    | some v => simp
    | none => simp
  | vNone => simp [py_get, event_type_of]
  | vInt n => simp [py_get, event_type_of]
  | vStr s => simp [py_get, event_type_of]
  | vList xs => simp [py_get, event_type_of]

lemma validate_event_dict (kvs : List (Str × PyVal)) :
    validate_event (.vDict kvs) =
      .ok (dict_has_key key_name kvs && dict_has_key key_event_id kvs) := by
  simp [validate_event, required_keys, List.all_cons]

lemma add_type_eq (kvs : List (Str × PyVal)) (s : Str)
    (h : dict_get key_name kvs = some (.vStr s)) :
    add_type (.vDict kvs) =
      .ok (.vDict (dict_set key_event_type (.vStr (split_head s)) kvs)) := by
  simp [add_type, h]

lemma group_step_mk (e t et : PyVal) (evs : List PyVal)
    (he : py_get e key_event_type = .ok et) :
    group_step e (mk_group t evs) =
      .ok (mk_group t (if et = t then evs ++ [e] else evs)) := by
  have h1 : py_get (mk_group t evs) key_event_type = .ok t := rfl
  have h2 : py_get (mk_group t evs) key_events = .ok (.vList evs) := rfl
  have hk : ¬ key_event_type = key_events := by decide
  by_cases h : et = t
  · subst h
    simp only [group_step, he, h1, h2, if_pos rfl, if_true]
    simp [mk_group, dict_set, hk]
  · simp only [group_step, he, h1, h2, if_neg h]

lemma group_pass_mk (e et : PyVal) (ps : List (PyVal × List PyVal))
    (he : py_get e key_event_type = .ok et) :
    group_pass e (mk_groups ps) =
      .ok (mk_groups (ps.map fun p =>
        (p.1, if et = p.1 then p.2 ++ [e] else p.2))) := by
  induction ps with
  | nil => simp [group_pass, mk_groups]
  | cons p rest ih =>
    obtain ⟨t, evs⟩ := p
    simp only [mk_groups, List.map_cons] at ih ⊢
    simp [group_pass, group_step_mk e t et evs he, ih]

lemma group_loop_mk (events : List PyVal) (ps : List (PyVal × List PyVal))
    (h : ∀ e ∈ events, (event_type_of e).isSome) :
    group_loop (mk_groups ps) events =
      .ok (mk_groups (ps.map fun p =>
        (p.1, p.2 ++ events.filter fun e => event_type_of e == some p.1))) := by
  induction events generalizing ps with
  | nil => simp [group_loop, mk_groups]
  | cons e rest ih =>
    obtain ⟨et, het⟩ := Option.isSome_iff_exists.mp (h e (List.mem_cons_self e rest))
    have he : py_get e key_event_type = .ok et := (py_get_event_type e et).mpr het
    have hrest : ∀ x ∈ rest, (event_type_of x).isSome :=
      fun x hx => h x (List.mem_cons_of_mem e hx)
    simp only [group_loop, group_pass_mk e et ps he]
    rw [ih _ hrest]
    refine congrArg _ (congrArg _ ?_)
    rw [List.map_map]
    refine List.map_congr_left fun p _ => ?_
    simp only [Function.comp]
    refine Prod.ext rfl ?_
    by_cases hc : et = p.1
    · subst hc
      simp [List.filter_cons, het, List.append_assoc]
    · have : ¬ (event_type_of e == some p.1) = true := by
        simp [het, hc]
      simp [List.filter_cons, this, hc]

lemma add_events_to_group_eq (events types : List PyVal)
    (h : ∀ e ∈ events, (event_type_of e).isSome) :
    add_events_to_group events types =
      .ok (types.map fun t =>
        mk_group t (events.filter fun e => event_type_of e == some t)) := by
  have h0 : types.map group_dict = mk_groups (types.map fun t => (t, ([] : List PyVal))) := by
    simp [mk_groups, List.map_map, group_dict_eq_mk_group, Function.comp]
  rw [add_events_to_group, h0, group_loop_mk events _ h]
  simp [mk_groups, List.map_map, Function.comp]

lemma count_filter_eq (p : PyVal → Bool) (e : PyVal) (l : List PyVal) :
    (l.filter p).count e = if p e then l.count e else 0 := by
  induction l with
  | nil => simp
  | cons x rest ih =>
    by_cases hx : p x
    · by_cases he : e = x
      · subst he
        simp [List.filter_cons, hx, List.count_cons, ih]
      · simp [List.filter_cons, hx, List.count_cons, ih, he]
    · by_cases he : e = x
      · subst he
        simp [List.filter_cons, hx, ih]
      · simp [List.filter_cons, hx, List.count_cons, ih, he]

lemma count_groups (e : PyVal) (types events : List PyVal) :
    ((types.map fun t => events.filter fun e2 => event_type_of e2 == some t).flatten.count e)
      = (types.countP fun t => event_type_of e == some t) * events.count e := by
  induction types with
  | nil => simp
  | cons t rest ih =>
    simp only [List.map_cons, List.flatten_cons, List.count_append, ih, List.countP_cons]
    rw [count_filter_eq]
    by_cases hc : (event_type_of e == some t) = true
    · simp only [hc, if_true, if_pos]
      ring
    · simp only [hc, if_false, if_neg]
      simp only [Bool.not_eq_true] at hc
      simp [hc]

lemma validate_event_of_dict (e : PyVal) (h : is_dict e = true) :
    ∃ b, validate_event e = .ok b := by
  cases e <;> simp_all [is_dict, validate_event]

lemma validate_event_of_not_dict (e : PyVal) (h : is_dict e = false) :
    validate_event e = .error .attributeError := by
  cases e <;> simp_all [is_dict, validate_event]

lemma filter_valid_ok_of (l : List PyVal) (h : ∀ e ∈ l, is_dict e = true) :
    filter_valid l = .ok (l.filter is_valid) := by
  induction l with
  | nil => simp [filter_valid]
  | cons e rest ih =>
    obtain ⟨b, hb⟩ := validate_event_of_dict e (h e (List.mem_cons_self e rest))
    have hrest := ih fun x hx => h x (List.mem_cons_of_mem e hx)
    cases b with
    | true => simp [filter_valid, hb, hrest, List.filter_cons, is_valid]
    | false => simp [filter_valid, hb, hrest, List.filter_cons, is_valid]

lemma filter_valid_err_of (l : List PyVal) (h : ∃ e ∈ l, is_dict e = false) :
    filter_valid l = .error .attributeError := by
  induction l with
  | nil => simp at h
  | cons e rest ih =>
    by_cases hd : is_dict e = true
    · obtain ⟨b, hb⟩ := validate_event_of_dict e hd
      obtain ⟨x, hx, hxd⟩ := h
      rcases List.mem_cons.mp hx with rfl | hx2
      · rw [hd] at hxd
        exact absurd hxd (by simp)
      · simp [filter_valid, hb, ih ⟨x, hx2, hxd⟩]
    · have hv := validate_event_of_not_dict e (by simpa using hd)
      simp [filter_valid, hv]

lemma filter_valid_mem_dict (l kept : List PyVal) (h : filter_valid l = .ok kept) :
    ∀ e ∈ l, is_dict e = true := by
  intro e he
  by_contra hd
  rw [filter_valid_err_of l ⟨e, he, by simpa using hd⟩] at h
  exact Except.noConfusion h

lemma filter_valid_ok_shape (l kept : List PyVal) (h : filter_valid l = .ok kept) :
    kept = l.filter is_valid := by
  have h2 := filter_valid_ok_of l (filter_valid_mem_dict l kept h)
  rw [h] at h2
  exact Except.ok.inj h2

lemma add_type_ok_shape (e w : PyVal) (h : add_type e = .ok w) :
    ∃ kvs s, e = .vDict kvs ∧ dict_get key_name kvs = some (.vStr s) ∧
      w = .vDict (dict_set key_event_type (.vStr (split_head s)) kvs) := by
  cases e with
  | vDict kvs =>
    cases hn : dict_get key_name kvs with
    | none => simp [add_type, hn] at h
    | some v =>
      cases v with
      | vStr s =>
        refine ⟨kvs, s, rfl, hn, ?_⟩
        have h2 := add_type_eq kvs s hn
        rw [h2] at h
        exact (Except.ok.inj h).symm
      | vNone => simp [add_type, hn] at h
      | vInt n => simp [add_type, hn] at h
      | vList xs => simp [add_type, hn] at h
      | vDict kvs2 => simp [add_type, hn] at h
  | vNone => simp [add_type] at h
  | vInt n => simp [add_type] at h
  | vStr s => simp [add_type] at h
  | vList xs => simp [add_type] at h

lemma add_type_ok_type (e w : PyVal) (h : add_type e = .ok w) :
    ∃ s, event_type_of w = some (.vStr s) := by
  obtain ⟨kvs, s, rfl, hn, rfl⟩ := add_type_ok_shape e w h
  exact ⟨split_head s, by simp [event_type_of, dict_get_set_self]⟩

lemma add_type_err_nonstr (e : PyVal) (hd : is_dict e = true)
    (v : PyVal) (hn : event_name_of e = some v) (hs : is_str v = false) :
    add_type e = .error .attributeError := by
  cases e with
  | vDict kvs =>
    simp only [event_name_of] at hn
    cases v <;> simp_all [add_type, is_str]
  | vNone => simp [is_dict] at hd
  | vInt n => simp [is_dict] at hd
  | vStr s => simp [is_dict] at hd
  | vList xs => simp [is_dict] at hd

lemma map_add_type_ok_iff (l ws : List PyVal) :
    map_add_type l = .ok ws ↔
      List.Forall₂ (fun e w => add_type e = .ok w) l ws := by
  induction l generalizing ws with
  | nil =>
    constructor
    · intro h
      obtain rfl : ([] : List PyVal) = ws := Except.ok.inj h
      exact List.Forall₂.nil
    · intro h
      cases h
      rfl
  | cons e rest ih =>
    constructor
    · intro h
      cases ha : add_type e with
      | error er =>
        rw [map_add_type, ha] at h
        exact Except.noConfusion h
      | ok w =>
        cases hrest : map_add_type rest with
        | error er =>
          rw [map_add_type, ha, hrest] at h
          exact Except.noConfusion h
        | ok ws2 =>
          rw [map_add_type, ha, hrest] at h
          obtain rfl := Except.ok.inj h
          exact List.Forall₂.cons ha ((ih ws2).mp hrest)
    · intro h
      obtain ⟨w, ws2, hw, hrest2, rfl⟩ := List.forall₂_cons_left_iff.mp h
      simp [map_add_type, hw, (ih ws2).mpr hrest2]

lemma map_add_type_err_nonstr (l : List PyVal)
    (hd : ∀ e ∈ l, is_dict e = true ∧ (event_name_of e).isSome)
    (hex : ∃ e ∈ l, has_str_name e = false) :
    map_add_type l = .error .attributeError := by
  induction l with
  | nil => simp at hex
  | cons e rest ih =>
    obtain ⟨hde, hne⟩ := hd e (List.mem_cons_self e rest)
    by_cases hs : has_str_name e = true
    · obtain ⟨x, hx, hxs⟩ := hex
      rcases List.mem_cons.mp hx with rfl | hx2
      · rw [hs] at hxs
        exact absurd hxs (by simp)
      · obtain ⟨v, hv⟩ := Option.isSome_iff_exists.mp hne
        have hvs : ∃ s, v = .vStr s := by
          simp only [has_str_name, hv] at hs
          cases v <;> simp_all
        obtain ⟨s, rfl⟩ := hvs
        cases e with
        | vDict kvs =>
          have ha := add_type_eq kvs s (by simpa [event_name_of] using hv)
          simp [map_add_type, ha,
            ih (fun x hx3 => hd x (List.mem_cons_of_mem _ hx3)) ⟨x, hx2, hxs⟩]
        | vNone => simp [is_dict] at hde
        | vInt n => simp [is_dict] at hde
        | vStr s2 => simp [is_dict] at hde
        | vList xs => simp [is_dict] at hde
    · obtain ⟨v, hv⟩ := Option.isSome_iff_exists.mp hne
      have ha : add_type e = .error .attributeError := by
        refine add_type_err_nonstr e hde v hv ?_
        simp only [has_str_name, hv] at hs
        cases v <;> simp_all [is_str]
      simp [map_add_type, ha]

lemma map_event_type_ok (ws : List PyVal)
    (h : ∀ e ∈ ws, (event_type_of e).isSome) :
    ∃ ts, map_event_type ws = .ok ts := by
  induction ws with
  | nil => exact ⟨[], rfl⟩
  | cons e rest ih =>
    obtain ⟨t, ht⟩ := Option.isSome_iff_exists.mp (h e (List.mem_cons_self e rest))
    obtain ⟨ts, hts⟩ := ih fun x hx => h x (List.mem_cons_of_mem e hx)
    exact ⟨t :: ts, by
      simp [map_event_type, (py_get_event_type e t).mpr ht, hts]⟩

lemma map_event_type_mem (ws ts : List PyVal)
    (h : map_event_type ws = .ok ts) :
    ∀ t, t ∈ ts ↔ ∃ e ∈ ws, event_type_of e = some t := by
  induction ws generalizing ts with
  | nil =>
    obtain rfl : ([] : List PyVal) = ts := Except.ok.inj h
    simp
  | cons e rest ih =>
    cases he : py_get e key_event_type with
    | error er =>
      rw [map_event_type, he] at h
      exact Except.noConfusion h
    | ok t0 =>
      cases hrest : map_event_type rest with
      | error er =>
        rw [map_event_type, he, hrest] at h
        exact Except.noConfusion h
      | ok ts2 =>
        rw [map_event_type, he, hrest] at h
        obtain rfl := Except.ok.inj h
        have he2 : event_type_of e = some t0 := (py_get_event_type e t0).mp he
        intro t
        constructor
        · intro ht
          rcases List.mem_cons.mp ht with rfl | ht2
          · exact ⟨e, List.mem_cons_self e rest, he2⟩
          · obtain ⟨x, hx, hxt⟩ := (ih ts2 hrest t).mp ht2
            exact ⟨x, List.mem_cons_of_mem e hx, hxt⟩
        · rintro ⟨x, hx, hxt⟩
          rcases List.mem_cons.mp hx with rfl | hx2
          · rw [he2] at hxt
            obtain rfl := Option.some.inj hxt
            exact List.mem_cons_self _ _
          · exact List.mem_cons_of_mem t0
              ((ih ts2 hrest t).mpr ⟨x, hx2, hxt⟩)

lemma mem_dedup_first (x : PyVal) (seen l : List PyVal) :
    x ∈ dedup_first seen l ↔ (x ∈ l ∧ x ∉ seen) := by
  induction l generalizing seen with
  | nil => simp [dedup_first]
  | cons y rest ih =>
    by_cases hy : y ∈ seen
    · rw [dedup_first, if_pos hy, ih]
      by_cases hxy : x = y
      · subst hxy
        simp [hy]
      · simp [hxy]
    · rw [dedup_first, if_neg hy]
      by_cases hxy : x = y
      · subst hxy
        simp [hy]
      · simp only [List.mem_cons, ih]
        tauto

lemma dedup_first_nodup (seen l : List PyVal) : (dedup_first seen l).Nodup := by
  induction l generalizing seen with
  | nil => simp [dedup_first]
  | cons y rest ih =>
    by_cases hy : y ∈ seen
    · rw [dedup_first, if_pos hy]
      exact ih seen
    · rw [dedup_first, if_neg hy]
      refine List.Nodup.cons ?_ (ih (y :: seen))
      rw [mem_dedup_first]
      simp

lemma set_order_choose_first : SetOrder choose_first := by
  intro l
  refine ⟨dedup_first_nodup [] l, fun x => ?_⟩
  simp [choose_first, mem_dedup_first]

lemma set_order_choose_rev : SetOrder choose_rev := by
  intro l
  refine ⟨?_, fun x => ?_⟩
  · rw [choose_rev, List.nodup_reverse]
    exact dedup_first_nodup [] l
  · rw [choose_rev, List.mem_reverse]
    simp [mem_dedup_first]

lemma try_body_events (choose : List PyVal → List PyVal) (events : List PyVal) :
    try_body choose (.vDict [(key_events, .vList events)]) =
      run_pipeline choose events := rfl

/-- A record that passed validation and classification is a fixed point:
validating it again succeeds and classifying it again rewrites the same
event_type value, leaving it unchanged. -/
lemma add_type_fixpoint (e w : PyVal) (hv : validate_event e = .ok true)
    (hw : add_type e = .ok w) :
    validate_event w = .ok true ∧ add_type w = .ok w := by
  obtain ⟨kvs, s, rfl, hn, rfl⟩ := add_type_ok_shape _ w hw
  have hk1 : key_name ≠ key_event_type := by decide
  have hk2 : key_event_id ≠ key_event_type := by decide
  constructor
  · rw [validate_event_dict] at hv ⊢
    simp only [dict_has_key] at hv ⊢
    rw [dict_get_set_ne _ _ _ _ hk1, dict_get_set_ne _ _ _ _ hk2]
    exact hv
  · rw [add_type_eq _ s (by rw [dict_get_set_ne _ _ _ _ hk1]; exact hn),
      dict_set_idem]

lemma batch_after_spec (events events2 : List PyVal)
    (h : batch_after events = .ok events2) :
    List.Forall₂ after_rel events events2 ∧
    ∃ kept ws, filter_valid events = .ok kept ∧ map_add_type kept = .ok ws ∧
      filter_valid events2 = .ok ws ∧ map_add_type ws = .ok ws ∧
      batch_after events2 = .ok events2 := by
  induction events generalizing events2 with
  | nil =>
    obtain rfl : ([] : List PyVal) = events2 := Except.ok.inj h
    exact ⟨List.Forall₂.nil, [], [], rfl, rfl, rfl, rfl, rfl⟩
  | cons e rest ih =>
    cases hv : validate_event e with
    | error er =>
      rw [batch_after, hv] at h
      exact Except.noConfusion h
    | ok b =>
      cases b with
      | true =>
        cases ha : add_type e with
        | error er =>
          rw [batch_after, hv] at h
          simp only [if_true] at h
          rw [ha] at h
          exact Except.noConfusion h
        | ok w =>
          cases hrest : batch_after rest with
          | error er =>
            rw [batch_after, hv] at h
            simp only [if_true] at h
            rw [ha, hrest] at h
            exact Except.noConfusion h
          | ok rest2 =>
            rw [batch_after, hv] at h
            simp only [if_true] at h
            rw [ha, hrest] at h
            obtain rfl := Except.ok.inj h
            obtain ⟨F2, kept, ws, h1, h2, h3, h4, h5⟩ := ih rest2 hrest
            obtain ⟨hvw, haw⟩ := add_type_fixpoint e w hv ha
            refine ⟨List.Forall₂.cons (Or.inl ⟨hv, ha⟩) F2, e :: kept, w :: ws,
              ?_, ?_, ?_, ?_, ?_⟩
            · simp [filter_valid, hv, h1]
            · simp [map_add_type, ha, h2]
            · simp [filter_valid, hvw, h3]
            · simp [map_add_type, haw, h4]
            · simp [batch_after, hvw, haw, h5]
      | false =>
        cases hrest : batch_after rest with
        | error er =>
          rw [batch_after, hv] at h
          simp only [if_false] at h
          rw [hrest] at h
          exact Except.noConfusion h
        | ok rest2 =>
          rw [batch_after, hv] at h
          simp only [if_false] at h
          rw [hrest] at h
          obtain rfl := Except.ok.inj h
          obtain ⟨F2, kept, ws, h1, h2, h3, h4, h5⟩ := ih rest2 hrest
          refine ⟨List.Forall₂.cons (Or.inr ⟨hv, rfl⟩) F2, kept, ws,
            ?_, h2, ?_, h4, ?_⟩
          · simp [filter_valid, hv, h1]
          · simp [filter_valid, hv, h3]
          · simp [batch_after, hv, h5]

lemma map_add_type_types (l ws : List PyVal) (h : map_add_type l = .ok ws) :
    ∀ w ∈ ws, (event_type_of w).isSome := by
  induction l generalizing ws with
  | nil =>
    obtain rfl : ([] : List PyVal) = ws := Except.ok.inj h
    simp
  | cons e rest ih =>
    cases ha : add_type e with
    | error er =>
      rw [map_add_type, ha] at h
      exact Except.noConfusion h
    | ok w =>
      cases hrest : map_add_type rest with
      | error er =>
        rw [map_add_type, ha, hrest] at h
        exact Except.noConfusion h
      | ok ws2 =>
        rw [map_add_type, ha, hrest] at h
        obtain rfl := Except.ok.inj h
        intro x hx
        rcases List.mem_cons.mp hx with rfl | hx2
        · obtain ⟨s, hs⟩ := add_type_ok_type e x ha
          simp [hs]
        · exact ih ws2 hrest x hx2

/-- Successful pipeline runs produce exactly one group per entry of the
chosen type enumeration, each holding the matching classified records in
their original relative order. -/
lemma run_pipeline_ok (choose : List PyVal → List PyVal)
    (events gs : List PyVal) (h : run_pipeline choose events = .ok gs) :
    ∃ kept ws ts, filter_valid events = .ok kept ∧ map_add_type kept = .ok ws ∧
      map_event_type ws = .ok ts ∧
      gs = (choose ts).map fun t =>
        mk_group t (ws.filter fun e => event_type_of e == some t) := by
  cases h1 : filter_valid events with
  | error er =>
    simp only [run_pipeline, h1] at h
    exact Except.noConfusion h
  | ok kept =>
    cases h2 : map_add_type kept with
    | error er =>
      simp only [run_pipeline, h1, h2] at h
      exact Except.noConfusion h
    | ok ws =>
      cases h3 : map_event_type ws with
      | error er =>
        simp only [run_pipeline, h1, h2, h3] at h
        exact Except.noConfusion h
      | ok ts =>
        simp only [run_pipeline, h1, h2, h3] at h
        rw [add_events_to_group_eq ws (choose ts) (map_add_type_types kept ws h2)] at h
        exact ⟨kept, ws, ts, rfl, h2, h3, (Except.ok.inj h).symm⟩

lemma is_failed_dispatch_one (handlers : Str → Option Handler) (g : SGroup) :
    is_failed (dispatch_one handlers g) = fails_on handlers g := by
  cases hc : handlers g.category with
  | none =>
    simp only [dispatch_one, fails_on, hc]
    rfl
  | some h =>
    simp only [dispatch_one, fails_on, hc]
    cases hh : h g.records with
    | success => rfl
    | failure err => rfl

lemma handled_or_unrouted_not_failed (r : DispatchResult) :
    is_handled_or_unrouted r = !(is_failed r) := by
  cases r <;> rfl

lemma countP_bool_split {α : Type} (p : α → Bool) (l : List α) :
    l.countP p + l.countP (fun a => !(p a)) = l.length := by
  induction l with
  | nil => simp
  | cons x rest ih =>
    by_cases hx : p x = true
    · simp [List.countP_cons, hx]
      omega
    · have hx2 : p x = false := by simpa using hx
      simp [List.countP_cons, hx2]
      omega

lemma validate_true_name (e : PyVal) (h : validate_event e = .ok true) :
    (event_name_of e).isSome := by
  cases e with
  | vDict kvs =>
    rw [validate_event_dict] at h
    have h2 := Except.ok.inj h
    simp only [Bool.and_eq_true] at h2
    simpa [event_name_of, dict_has_key] using h2.1
  | vNone => simp [validate_event] at h
  | vInt n => simp [validate_event] at h
  | vStr s => simp [validate_event] at h
  | vList xs => simp [validate_event] at h

lemma count_valid_split (l : List PyVal) (h : ∀ e ∈ l, is_dict e = true) :
    l.countP is_valid +
      l.countP (fun e => decide (validate_event e = .ok false)) = l.length := by
  induction l with
  | nil => simp
  | cons e rest ih =>
    obtain ⟨b, hb⟩ := validate_event_of_dict e (h e (List.mem_cons_self e rest))
    have ih2 := ih fun x hx => h x (List.mem_cons_of_mem e hx)
    cases b with
    | true =>
      have h1 : is_valid e = true := by simp [is_valid, hb]
      have h2 : (decide (validate_event e = .ok false)) = false := by simp [hb]
      simp [List.countP_cons, h1, h2]
      omega
    | false =>
      have h1 : is_valid e = false := by simp [is_valid, hb]
      have h2 : (decide (validate_event e = .ok false)) = true := by simp [hb]
      simp [List.countP_cons, h1, h2]
      omega

/-- Claim C1: failure isolation of dispatch — for every batch producing N
Groups in which exactly one Group's Handler fails, the remaining Groups are
still processed and the DispatchResult sequence contains exactly one Failed
entry and N-1 entries that are Handled or Unrouted, never fewer than N
entries in total.  (The dispatch stage is modelled from the spec: the code
in src registers no handlers.) -/
theorem claim_C1 (handlers : Str → Option Handler) (groups : List SGroup)
    (h : groups.countP (fun g => fails_on handlers g) = 1) :
    (group_and_dispatch handlers groups).length = groups.length ∧
    (group_and_dispatch handlers groups).countP is_failed = 1 ∧
    (group_and_dispatch handlers groups).countP is_handled_or_unrouted =
      groups.length - 1 := by
  have hlen : (group_and_dispatch handlers groups).length = groups.length :=
    List.length_map groups (dispatch_one handlers)
  have hfail : (group_and_dispatch handlers groups).countP is_failed = 1 := by
    rw [group_and_dispatch, List.countP_map]
    rw [show (is_failed ∘ dispatch_one handlers) =
        (fun g => fails_on handlers g) from
      funext fun g => is_failed_dispatch_one handlers g]
    exact h
  refine ⟨hlen, hfail, ?_⟩
  have hsplit := countP_bool_split is_failed (group_and_dispatch handlers groups)
  have hcomp : (group_and_dispatch handlers groups).countP
      is_handled_or_unrouted =
      (group_and_dispatch handlers groups).countP (fun r => !(is_failed r)) := by
    rw [show is_handled_or_unrouted = (fun r => !(is_failed r)) from
      funext handled_or_unrouted_not_failed]
  rw [hcomp]
  omega

/-- Witness for claim C1: three concrete groups of which exactly the one
with category u has a failing handler; dispatch returns three results, one
Failed and two Handled or Unrouted. -/
theorem claim_C1_witness :
    (w_groups.countP (fun g => fails_on w_handlers g) = 1) ∧
    ((group_and_dispatch w_handlers w_groups).length = w_groups.length ∧
      (group_and_dispatch w_handlers w_groups).countP is_failed = 1 ∧
      (group_and_dispatch w_handlers w_groups).countP is_handled_or_unrouted =
        w_groups.length - 1) :=
  ⟨by decide, claim_C1 w_handlers w_groups (by decide)⟩

/-- Counterexample to claim C2 as stated: the record
`{"name": "x", "id": 1}` carries both the name key and the id key, so the
claim says it is accepted, but validate_event rejects it — the code requires
the key "event_id", not "id". -/
theorem claim_C2_counterexample :
    validate_event
        (.vDict [(key_name, .vStr (("x").toList)), (key_id, .vInt 1)]) =
      .ok false ∧
    dict_has_key key_name
        [(key_name, .vStr (("x").toList)), (key_id, .vInt 1)] = true ∧
    dict_has_key key_id
        [(key_name, .vStr (("x").toList)), (key_id, .vInt 1)] = true := by
  decide

/-- Claim C2 as amended: the Validator accepts a record iff both the name
key and the event_id key are present in it; the values bound to those keys
may be anything (the equivalence is over all entry lists), only key
presence is checked. -/
theorem claim_C2 (kvs : List (Str × PyVal)) :
    validate_event (.vDict kvs) = .ok true ↔
      (dict_has_key key_name kvs = true ∧
        dict_has_key key_event_id kvs = true) := by
  rw [validate_event_dict]
  simp [Bool.and_eq_true]

/-- Counterexample to claim C3 as stated: two batches that differ only in
the content of a rejected record produce identical caller-visible output
(returned message and printed groups), so rejected records are not reported
back to the caller — they are silently dropped after a count-only log
warning. -/
theorem claim_C3_counterexample :
    validate_event rec_invalid = .ok false ∧
    validate_event rec_invalid2 = .ok false ∧
    rec_invalid ≠ rec_invalid2 ∧
    lambda_output choose_first (.vDict [(key_events, .vList [rec_invalid])]) =
      lambda_output choose_first
        (.vDict [(key_events, .vList [rec_invalid2])]) := by
  decide

/-- Claim C3 as amended: the Validator partitions the batch without loss or
duplication — accepted plus rejected counts equal the batch size — but the
rejected records are silently dropped: the pipeline's result is the same as
if they had never been in the batch, and nothing about them is returned to
the caller. -/
theorem claim_C3 (events kept : List PyVal)
    (h : filter_valid events = .ok kept) :
    kept.length +
        (events.countP fun e => decide (validate_event e = .ok false)) =
      events.length ∧
    ∀ choose, run_pipeline choose events = run_pipeline choose kept := by
  have hdicts := filter_valid_mem_dict events kept h
  have hshape := filter_valid_ok_shape events kept h
  constructor
  · rw [hshape, ← List.countP_eq_length_filter]
    exact count_valid_split events hdicts
  · intro choose
    have hkeptd : ∀ x ∈ kept, is_dict x = true := by
      intro x hx
      rw [hshape] at hx
      exact hdicts x (List.mem_of_mem_filter hx)
    have h2 : filter_valid kept = .ok kept := by
      rw [filter_valid_ok_of kept hkeptd]
      refine congrArg _ ?_
      refine List.filter_eq_self.mpr fun a ha => ?_
      rw [hshape] at ha
      exact (List.mem_filter.mp ha).2
    simp only [run_pipeline, h, h2]

/-- Witness for claim C3: a batch of one valid and one invalid record; the
counts add up and the pipeline behaves as if the invalid record were
absent. -/
theorem claim_C3_witness :
    (filter_valid [rec_u, rec_invalid] = .ok [rec_u]) ∧
    (([rec_u] : List PyVal).length +
        (([rec_u, rec_invalid] : List PyVal).countP fun e =>
          decide (validate_event e = .ok false)) =
      ([rec_u, rec_invalid] : List PyVal).length ∧
    ∀ choose, run_pipeline choose [rec_u, rec_invalid] =
      run_pipeline choose [rec_u]) :=
  ⟨by decide, claim_C3 [rec_u, rec_invalid] [rec_u] (by decide)⟩

/-- Claim C4: for every accepted record whose name value is the string s,
add_type computes the category as the substring of s before the first
occurrence of the separator, stored under the event_type key: the category
is a prefix of s containing no separator, followed by nothing or by a
remainder that starts with the separator; and when s contains no separator
at all the category is s itself (not an error). -/
theorem claim_C4 (kvs : List (Str × PyVal)) (s : Str)
    (_hv : validate_event (.vDict kvs) = .ok true)
    (hn : dict_get key_name kvs = some (.vStr s)) :
    ∃ w, add_type (.vDict kvs) = .ok w ∧
      event_type_of w = some (.vStr (split_head s)) ∧
      (∃ rest, s = split_head s ++ rest ∧ ':' ∉ split_head s ∧
        (rest = [] ∨ ∃ r, rest = ':' :: r)) ∧
      (':' ∉ s → split_head s = s) := by
  refine ⟨_, add_type_eq kvs s hn, ?_, ?_, split_head_of_no_sep s⟩
  · simp [event_type_of, dict_get_set_self]
  · obtain ⟨rest, h1, h2⟩ := split_head_prefix s
    exact ⟨rest, h1, split_head_no_sep s, h2⟩

/-- Witness for claim C4: the record `{"name": "standalone", "id": 2}` of
the spec's scenario D (with the code's event_id key): no separator, so the
category is the whole string "standalone". -/
theorem claim_C4_witness :
    (validate_event (.vDict [(key_name, .vStr (("standalone").toList)),
        (key_event_id, .vInt 2)]) = .ok true) ∧
    (dict_get key_name [(key_name, .vStr (("standalone").toList)),
        (key_event_id, .vInt 2)] = some (.vStr (("standalone").toList))) ∧
    (∃ w, add_type (.vDict [(key_name, .vStr (("standalone").toList)),
        (key_event_id, .vInt 2)]) = .ok w ∧
      event_type_of w = some (.vStr (split_head (("standalone").toList))) ∧
      (∃ rest, ("standalone").toList =
          split_head (("standalone").toList) ++ rest ∧
        ':' ∉ split_head (("standalone").toList) ∧
        (rest = [] ∨ ∃ r, rest = ':' :: r)) ∧
      (':' ∉ ("standalone").toList →
        split_head (("standalone").toList) = ("standalone").toList)) :=
  ⟨by decide, by decide,
    claim_C4 [(key_name, .vStr (("standalone").toList)),
      (key_event_id, .vInt 2)] (("standalone").toList) (by decide) (by decide)⟩

/-- Counterexample to claim C5 as stated: a batch containing the
non-mapping record 5 next to a perfectly valid record is aborted wholesale —
lambda_handler returns the unexpected-error message and processes nothing,
while the same valid record alone is processed into a group.  No Rejected
entry with reason "malformed record" exists anywhere; the AttributeError
escapes validate_event and is only caught by the handler's blanket except
clause. -/
theorem claim_C5_counterexample :
    lambda_output choose_first
        (.vDict [(key_events, .vList [.vInt 5, rec_u])]) =
      (msg_unexpected, []) ∧
    lambda_output choose_first (.vDict [(key_events, .vList [rec_u])]) =
      (msg_processed, [mk_group (.vStr ['u']) [rec_u_typed]]) := by
  decide

/-- Claim C5 as amended: exceptions do escape the Validator and Classifier.
A record that is not a mapping raises AttributeError inside validate_event,
and a validated record whose name is present but not a string raises
AttributeError inside add_type; in both cases the exception is caught only
by lambda_handler's blanket except clause, the whole batch is aborted with
the unexpected-error message, and no group is processed — there is no
rejection list. -/
theorem claim_C5 (choose : List PyVal → List PyVal) (events : List PyVal) :
    ((∃ e ∈ events, is_dict e = false) →
      lambda_output choose (.vDict [(key_events, .vList events)]) =
        (msg_unexpected, [])) ∧
    ((∀ e ∈ events, is_dict e = true) →
      (∃ e ∈ events, validate_event e = .ok true ∧ has_str_name e = false) →
      lambda_output choose (.vDict [(key_events, .vList events)]) =
        (msg_unexpected, [])) := by
  constructor
  · intro hex
    have h1 := filter_valid_err_of events hex
    simp only [lambda_output, try_body_events, run_pipeline, h1]
  · intro hall hex
    have h1 : filter_valid events = .ok (events.filter is_valid) :=
      filter_valid_ok_of events hall
    have hkd : ∀ e ∈ events.filter is_valid,
        is_dict e = true ∧ (event_name_of e).isSome := by
      intro e he
      have hmem := List.mem_of_mem_filter he
      have hval : is_valid e = true := (List.mem_filter.mp he).2
      have hvt : validate_event e = .ok true := of_decide_eq_true hval
      exact ⟨hall e hmem, validate_true_name e hvt⟩
    have hex2 : ∃ e ∈ events.filter is_valid, has_str_name e = false := by
      obtain ⟨e, he, hv, hs⟩ := hex
      exact ⟨e, List.mem_filter.mpr ⟨he, decide_eq_true hv⟩, hs⟩
    have h2 := map_add_type_err_nonstr (events.filter is_valid) hkd hex2
    simp only [lambda_output, try_body_events, run_pipeline, h1, h2]

/-- Witness for claim C5: the batch with the non-mapping record 5 aborts
with the unexpected-error message, and so does the batch whose only record
has the int 7 as its name. -/
theorem claim_C5_witness :
    ((∃ e ∈ [(.vInt 5 : PyVal), rec_u], is_dict e = false) ∧
      lambda_output choose_first
          (.vDict [(key_events, .vList [.vInt 5, rec_u])]) =
        (msg_unexpected, [])) ∧
    ((∀ e ∈ [rec_int_name], is_dict e = true) ∧
      (∃ e ∈ [rec_int_name],
        validate_event e = .ok true ∧ has_str_name e = false) ∧
      lambda_output choose_first
          (.vDict [(key_events, .vList [rec_int_name])]) =
        (msg_unexpected, [])) :=
  ⟨⟨by decide, (claim_C5 choose_first [.vInt 5, rec_u]).1 (by decide)⟩,
   ⟨by decide, by decide,
     (claim_C5 choose_first [rec_int_name]).2 (by decide) (by decide)⟩⟩

/-- Counterexample to claim C6 as stated: the batch [rec_u, rec_a] has
first-seen category order u before a (its classified type list is
[u, a]), yet under the admissible set iteration order choose_rev the
grouping stage returns the a group before the u group — group order
follows `list(set(...))`, whose iteration order is not first-seen. -/
theorem claim_C6_counterexample :
    SetOrder choose_rev ∧
    map_add_type batch_ua = .ok [rec_u_typed, rec_a_typed] ∧
    map_event_type [rec_u_typed, rec_a_typed] =
      .ok [.vStr ['u'], .vStr ['a']] ∧
    run_pipeline choose_rev batch_ua =
      .ok [mk_group (.vStr ['a']) [rec_a_typed],
        mk_group (.vStr ['u']) [rec_u_typed]] ∧
    [(.vStr ['a'] : PyVal), .vStr ['u']] ≠ [.vStr ['u'], .vStr ['a']] :=
  ⟨set_order_choose_rev, by decide, by decide, by decide, by decide⟩

/-- Claim C6 as amended: for every admissible set iteration order, the
grouping stage returns one group per distinct category — the groups'
categories are exactly the distinct categories occurring among the
classified records, each exactly once, in the unspecified order produced
by `list(set(...))`, not necessarily first-seen order — and within each
group the records appear in their original relative order: each group's
record list is the filter of the classified record sequence (itself a
sublist of the input batch, in input order) to that group's category. -/
theorem claim_C6 (choose : List PyVal → List PyVal) (hc : SetOrder choose)
    (events gs : List PyVal) (h : run_pipeline choose events = .ok gs) :
    ∃ kept ws, filter_valid events = .ok kept ∧ kept.Sublist events ∧
      map_add_type kept = .ok ws ∧
      (gs.map event_type_of).Nodup ∧
      (∀ t, (∃ g ∈ gs, event_type_of g = some t) ↔
        ∃ e ∈ ws, event_type_of e = some t) ∧
      ∀ g ∈ gs, ∃ t, event_type_of g = some t ∧
        events_of g = some (ws.filter fun e => event_type_of e == some t) := by
  obtain ⟨kept, ws, ts, h1, h2, h3, rfl⟩ := run_pipeline_ok choose events gs h
  refine ⟨kept, ws, h1, ?_, h2, ?_, ?_, ?_⟩
  · rw [filter_valid_ok_shape events kept h1]
    exact List.filter_sublist events
  · rw [List.map_map]
    rw [show (event_type_of ∘ fun t =>
        mk_group t (ws.filter fun e => event_type_of e == some t)) =
        some from funext fun t => event_type_of_mk_group t _]
    exact ((hc ts).1).map (Option.some_injective PyVal)
  · intro t
    rw [← map_event_type_mem ws ts h3 t, ← (hc ts).2 t]
    constructor
    · rintro ⟨g, hg, hgt⟩
      obtain ⟨t2, ht2, rfl⟩ := List.mem_map.mp hg
      rw [event_type_of_mk_group] at hgt
      obtain rfl := Option.some.inj hgt
      exact ht2
    · intro ht
      exact ⟨mk_group t (ws.filter fun e => event_type_of e == some t),
        List.mem_map_of_mem _ ht, event_type_of_mk_group t _⟩
  · intro g hg
    obtain ⟨t, ht, rfl⟩ := List.mem_map.mp hg
    exact ⟨t, event_type_of_mk_group t _, events_of_mk_group t _⟩

/-- Witness for claim C6: the two-category batch under the first-seen
admissible order choose_first. -/
theorem claim_C6_witness :
    SetOrder choose_first ∧
    run_pipeline choose_first batch_ua =
      .ok [mk_group (.vStr ['u']) [rec_u_typed],
        mk_group (.vStr ['a']) [rec_a_typed]] ∧
    (∃ kept ws, filter_valid batch_ua = .ok kept ∧ kept.Sublist batch_ua ∧
      map_add_type kept = .ok ws ∧
      (([mk_group (.vStr ['u']) [rec_u_typed],
          mk_group (.vStr ['a']) [rec_a_typed]].map event_type_of).Nodup) ∧
      (∀ t, (∃ g ∈ [mk_group (.vStr ['u']) [rec_u_typed],
          mk_group (.vStr ['a']) [rec_a_typed]], event_type_of g = some t) ↔
        ∃ e ∈ ws, event_type_of e = some t) ∧
      ∀ g ∈ [mk_group (.vStr ['u']) [rec_u_typed],
          mk_group (.vStr ['a']) [rec_a_typed]], ∃ t,
        event_type_of g = some t ∧
        events_of g = some (ws.filter fun e => event_type_of e == some t)) :=
  ⟨set_order_choose_first, by decide,
    claim_C6 choose_first set_order_choose_first batch_ua _ (by decide)⟩

/-- Claim C7: idempotence of the pipeline — running the handler's pipeline a
second time on the records as the first run left them (add_type mutates
validated records in place) produces exactly the same groups for the same
set iteration order, and the second run changes the records no further;
since the code registers no handlers, the groups are the dispatch results,
and dispatch is sequential, so even their order is preserved. -/
theorem claim_C7 (choose : List PyVal → List PyVal)
    (events events2 : List PyVal) (h : batch_after events = .ok events2) :
    run_pipeline choose events2 = run_pipeline choose events ∧
    batch_after events2 = .ok events2 := by
  obtain ⟨F2, kept, ws, h1, h2, h3, h4, h5⟩ := batch_after_spec events events2 h
  refine ⟨?_, h5⟩
  simp only [run_pipeline, h1, h2, h3, h4]

/-- Witness for claim C7: the batch of one valid and one invalid record;
after the run the valid record carries event_type and the second run
reproduces the same pipeline result and leaves the batch unchanged. -/
theorem claim_C7_witness :
    (batch_after [rec_u, rec_invalid] = .ok [rec_u_typed, rec_invalid]) ∧
    (run_pipeline choose_first [rec_u_typed, rec_invalid] =
        run_pipeline choose_first [rec_u, rec_invalid] ∧
      batch_after [rec_u_typed, rec_invalid] =
        .ok [rec_u_typed, rec_invalid]) :=
  ⟨by decide,
    claim_C7 choose_first [rec_u, rec_invalid] [rec_u_typed, rec_invalid]
      (by decide)⟩

/-- Counterexample to claim C8 as stated: the pipeline does mutate records
after handing them on — add_type adds the event_type key to the record
object in place, so after the run the batch holds a record different from
the one that was passed in, and the produced group aliases that mutated
record. -/
theorem claim_C8_counterexample :
    batch_after [rec_u] = .ok [rec_u_typed] ∧
    rec_u_typed ≠ rec_u ∧
    run_pipeline choose_first [rec_u] =
      .ok [mk_group (.vStr ['u']) [rec_u_typed]] := by
  decide

/-- Claim C8 as amended: validation leaves records unchanged but
classification mutates accepted records in place — a batch containing an
accepted record without an event_type key is different after the run — and
the grouping stage creates no new record entities: every record stored in a
group is, verbatim, one of the post-run batch records. -/
theorem claim_C8 (events events2 : List PyVal)
    (h : batch_after events = .ok events2)
    (hm : ∃ e ∈ events, validate_event e = .ok true ∧ event_type_of e = none) :
    events2 ≠ events ∧
    ∀ choose gs, run_pipeline choose events = .ok gs →
      ∀ g ∈ gs, ∀ x ∈ (events_of g).getD [], x ∈ events2 := by
  obtain ⟨F2, kept, ws, h1, h2, h3, h4, h5⟩ := batch_after_spec events events2 h
  constructor
  · intro heq
    subst heq
    obtain ⟨e, he, hv, ht⟩ := hm
    obtain ⟨i, hget⟩ := List.mem_iff_get.mp he
    have hF := (List.forall₂_iff_get.mp F2).2 i.1 i.2 i.2
    rw [hget] at hF
    cases hF with
    | inl hc =>
      obtain ⟨s, hs⟩ := add_type_ok_type e e hc.2
      rw [ht] at hs
      exact Option.noConfusion hs
    | inr hc =>
      rw [hv] at hc
      exact absurd (Except.ok.inj hc.1) (by decide)
  · intro choose gs hrun g hg x hx
    obtain ⟨kept2, ws2, ts, g1, g2, g3, rfl⟩ :=
      run_pipeline_ok choose events gs hrun
    rw [h1] at g1
    obtain rfl := Except.ok.inj g1
    rw [h2] at g2
    obtain rfl := Except.ok.inj g2
    obtain ⟨t, hts, rfl⟩ := List.mem_map.mp hg
    rw [events_of_mk_group] at hx
    simp only [Option.getD_some] at hx
    have hxws : x ∈ ws := List.mem_of_mem_filter hx
    have hshape := filter_valid_ok_shape events2 ws h3
    rw [hshape] at hxws
    exact List.mem_of_mem_filter hxws

/-- Witness for claim C8: the single-record batch [rec_u]. -/
theorem claim_C8_witness :
    (batch_after [rec_u] = .ok [rec_u_typed]) ∧
    (∃ e ∈ [rec_u], validate_event e = .ok true ∧ event_type_of e = none) ∧
    ([rec_u_typed] ≠ [rec_u] ∧
      ∀ choose gs, run_pipeline choose [rec_u] = .ok gs →
        ∀ g ∈ gs, ∀ x ∈ (events_of g).getD [], x ∈ [rec_u_typed]) :=
  ⟨by decide, by decide,
    claim_C8 [rec_u] [rec_u_typed] (by decide) (by decide)⟩

/-- Claim C9: for every input value (any embedded Python value, in
particular every dictionary) and set iteration order, lambda_handler never
propagates an exception — its result is always defined — and returns
exactly one of the three strings "events processed",
"Error: Missing key in event data" or
"Error: An unexpected error occurred". -/
theorem claim_C9 (choose : List PyVal → List PyVal) (event : PyVal) :
    lambda_handler choose event = msg_processed ∨
    lambda_handler choose event = msg_missing_key ∨
    lambda_handler choose event = msg_unexpected := by
  cases h : try_body choose event with
  | ok gs =>
    simp [lambda_handler, lambda_output, h]
  | error er =>
    cases er with
    | keyError k => simp [lambda_handler, lambda_output, h]
    | attributeError => simp [lambda_handler, lambda_output, h]
    | typeError => simp [lambda_handler, lambda_output, h]

/-- Claim C10: for every call to add_events_to_group in which every event
carries an event_type, the result has exactly one group per entry of
event_types — in order, each holding exactly the events whose event_type
equals that entry, even when empty — and each event value occurs in the
groups exactly k times per occurrence in the input, where k is the number
of entries of event_types equal to its event_type; in particular duplicate
entries duplicate the matching events across groups and an event whose
event_type occurs in no entry lands in no group. -/
theorem claim_C10 (events types : List PyVal)
    (h : ∀ e ∈ events, (event_type_of e).isSome) :
    add_events_to_group events types =
      .ok (types.map fun t =>
        mk_group t (events.filter fun e => event_type_of e == some t)) ∧
    ∀ e ∈ events,
      ((types.map fun t =>
          events.filter fun e2 => event_type_of e2 == some t).flatten.count e)
        = (types.countP fun t => event_type_of e == some t) * events.count e :=
  ⟨add_events_to_group_eq events types h, fun e _ => count_groups e types events⟩

/-- Witness for claim C10: duplicate type u entries place the u record in
two groups, the a record matches no entry and lands in no group, and the z
entry yields an empty group. -/
theorem claim_C10_witness :
    (∀ e ∈ [rec_u_typed, rec_a_typed], (event_type_of e).isSome) ∧
    (add_events_to_group [rec_u_typed, rec_a_typed]
        [.vStr ['u'], .vStr ['u'], .vStr ['z']] =
      .ok (([.vStr ['u'], .vStr ['u'], .vStr ['z']] : List PyVal).map fun t =>
        mk_group t
          (([rec_u_typed, rec_a_typed] : List PyVal).filter fun e =>
            event_type_of e == some t)) ∧
    ∀ e ∈ [rec_u_typed, rec_a_typed],
      ((([.vStr ['u'], .vStr ['u'], .vStr ['z']] : List PyVal).map fun t =>
          ([rec_u_typed, rec_a_typed] : List PyVal).filter fun e2 =>
            event_type_of e2 == some t).flatten.count e)
        = (([.vStr ['u'], .vStr ['u'], .vStr ['z']] : List PyVal).countP
            fun t => event_type_of e == some t) *
          ([rec_u_typed, rec_a_typed] : List PyVal).count e) :=
  ⟨by decide,
    claim_C10 [rec_u_typed, rec_a_typed] [.vStr ['u'], .vStr ['u'], .vStr ['z']]
      (by decide)⟩

end AwsEventHandler
